import Mathlib

/-!
Verification of the solodit-checklist-matcher frontend pipeline.

Shallow embedding of the match / propose / pending-change / create-PR logic
from `src/frontend/src/App.tsx`, `src/frontend/src/components/MatchResults.tsx`,
`src/frontend/src/components/TextInputPanel.tsx` and
`src/frontend/src/components/PendingChanges.tsx`, together with a few
operations that the repository's specification describes but whose backend
implementation is not part of the frontend sources (those definitions carry a
`Modelled from the spec` doc comment).

JavaScript numbers used as similarity scores are modelled as rationals (the
sorting logic only compares them), strings as Lean `String`, and JS array
operations as `List` operations.
-/

namespace SoloditMatcher

/-- A checklist item as defined by the `ChecklistItem` interface in
`App.tsx` (id, category, question, description, remediation, references,
optional score). The similarity score is modelled as an optional rational. -/
structure ChecklistItem where
  id : String
  category : String
  question : String
  description : String
  remediation : String
  references : List String
  score : Option ℚ
deriving DecidableEq, Repr

/-- Status of a pending change (`status` field of the `PendingChange`
interface in `App.tsx`): `pending` or `applied`. -/
inductive ChangeStatus where
  | pending
  | applied
deriving DecidableEq, Repr

/-- A pending change as defined by the `PendingChange` interface in
`App.tsx`: change_id, checklist_item_id, source_url, status, created_at
(timestamps modelled as naturals). -/
structure PendingChange where
  change_id : Nat
  checklist_item_id : String
  source_url : String
  status : ChangeStatus
  created_at : Nat
deriving DecidableEq, Repr

/-! ## safeApiCall (App.tsx lines 68-79) -/

/-- A JavaScript value thrown by an API call: a (truthy) object, `null`, or
a primitive value.  An object carries the string its `toString()` returns;
`typeof null` is `"object"` but `null` is falsy, and primitives fail the
`typeof error === 'object'` test. -/
inductive JsThrown where
  | objectVal (toStr : String)
  | nullVal
  | primVal (toStr : String)
deriving DecidableEq, Repr

/-- Result of a wrapped API call: either the successful value, or the
`{ error: true, message }` object built in the catch branch of
`safeApiCall`. -/
inductive ApiResponse (α : Type) where
  | success (data : α)
  | errorResult (message : String)
deriving DecidableEq, Repr

/-- The message chosen by the catch branch of `safeApiCall`: for a truthy
object it is `error.toString()`, otherwise the fixed unknown-error text. -/
def errMessage : JsThrown → String
  | .objectVal s => s
  | .nullVal => "An unknown error occurred"
  | .primVal _ => "An unknown error occurred"

/-- `safeApiCall` from `App.tsx`: runs the API call and converts any thrown
value into an `{ error: true, message }` result instead of re-throwing.
The call itself is modelled by its outcome, `Except JsThrown α`. -/
def safeApiCall {α : Type} (apiCall : Except JsThrown α) : ApiResponse α :=
  match apiCall with
  | .ok a => .success a
  | .error e => .errorResult (errMessage e)

/-! ## Create-PR in-flight state (App.tsx createPrMutation, PendingChanges.tsx button) -/

/-- User-visible events of the create-PR flow: a click on the
`Create GitHub PR` button (which is rendered with
`disabled={isCreatingPr}`), and the settling (success or failure) of an
in-flight create-PR request. -/
inductive PrAction where
  | clickCreatePr
  | prSettled
deriving DecidableEq, Repr

/-- What a click on the `Create GitHub PR` button does: start a request when
none is loading, otherwise nothing (the button is disabled, so the click is
ignored). -/
inductive ClickOutcome where
  | requestStarted
  | ignoredDisabled
deriving DecidableEq, Repr

/-- Outcome of a click given the number of in-flight create-PR requests:
the button is disabled exactly when `createPrMutation.isLoading`, i.e. when
a request is in flight. -/
def clickOutcome (inFlight : Nat) : ClickOutcome :=
  if inFlight == 0 then .requestStarted else .ignoredDisabled

/-- State transition of the create-PR flow on one event. A click starts a
request only when the button is enabled (no request loading); a settled
request leaves the in-flight set. -/
def prStep (inFlight : Nat) : PrAction → Nat
  | .clickCreatePr => if inFlight == 0 then 1 else inFlight
  | .prSettled => inFlight - 1

/-- Number of in-flight create-PR requests after a sequence of events,
starting from the idle state. -/
def runPr (acts : List PrAction) : Nat :=
  acts.foldl prStep 0

/-! ## Item selection toggle (App.tsx lines 333-337) -/

/-- `handleItemSelect` from `App.tsx`: toggles `itemId` in the selected-items
list — if present, remove it (`filter`), otherwise append it. -/
def handleItemSelect (prev : List String) (itemId : String) : List String :=
  if itemId ∈ prev then prev.filter (fun id => id != itemId) else prev ++ [itemId]

/-! ## Filter-and-sort over match results (MatchResults.tsx lines 46-88) -/

/-- The two values of the `sortBy` state in `MatchResults.tsx`:
`'score'` (relevance) or `'id'`. -/
inductive SortKey where
  | score
  | id
deriving DecidableEq, Repr

/-- The `item.score || 0` coercion used by the score comparator: a missing
score counts as `0` (a score of exactly `0` is also falsy in JS and likewise
yields `0`). -/
def scoreOrZero (m : ChecklistItem) : ℚ :=
  m.score.getD 0

/-- Stable insertion of `x` into a list: `x` is placed before the first
element `y` with `lt x y`, i.e. after every element it does not strictly
precede.  Used to model the (stable) `Array.prototype.sort`. -/
def insertStable {α : Type} (lt : α → α → Bool) (x : α) : List α → List α
  | [] => [x]
  | y :: ys => if lt x y then x :: y :: ys else y :: insertStable lt x ys

/-- Stable sort modelling `Array.prototype.sort(comparator)`: elements are
inserted left to right, each after all elements it does not strictly precede,
so equal elements keep their original relative order. `lt a b` holds exactly
when the JS comparator returns a negative number on `(a, b)`. -/
def jsSort {α : Type} (lt : α → α → Bool) (l : List α) : List α :=
  l.foldl (fun acc x => insertStable lt x acc) []

/-- Strict precedence for the `'score'` comparator
`(b.score || 0) - (a.score || 0)`: the result is negative exactly when
`a`'s score exceeds `b`'s. -/
def scoreLt (a b : ChecklistItem) : Bool :=
  decide (scoreOrZero b < scoreOrZero a)

/-- Strict precedence for the `'id'` comparator `a.id.localeCompare(b.id)`
(modelled as lexicographic comparison of the character lists): negative
exactly when `a.id` precedes `b.id` lexicographically. -/
def idLt (a b : ChecklistItem) : Bool :=
  decide (a.id.toList < b.id.toList)

/-- Comparator selected by the `sortBy` state. -/
def sortLt : SortKey → ChecklistItem → ChecklistItem → Bool
  | .score => scoreLt
  | .id => idLt

/-- JS `String.prototype.includes`, modelled as contiguous-sublist search on
the character lists. -/
def strIncludes (hay needle : String) : Bool :=
  decide (needle.toList <:+: hay.toList)

/-- The search predicate of `filteredMatches`: the (already lowercased)
search term occurs in the lowercased question, description or category. -/
def matchesSearch (searchLower : String) (m : ChecklistItem) : Bool :=
  strIncludes m.question.toLower searchLower ||
    strIncludes m.description.toLower searchLower ||
    strIncludes m.category.toLower searchLower

/-- `filteredMatches` from `MatchResults.tsx` (lines 55-88): apply the
category filter (skipped for the falsy empty string and for `'All'`), then
the search filter (skipped for an empty term), then sort with the selected
comparator. -/
def filteredMatches (matchList : List ChecklistItem)
    (searchTerm filterCategory : String) (sortBy : SortKey) : List ChecklistItem :=
  let f1 := if filterCategory ≠ "" ∧ filterCategory ≠ "All" then
    matchList.filter (fun m => m.category == filterCategory) else matchList
  let f2 := if searchTerm ≠ "" then
    f1.filter (matchesSearch searchTerm.toLower) else f1
  jsSort (sortLt sortBy) f2

/-- The guard `if (!results || !results.matches) return []` at the top of
`filteredMatches`: a missing matches array yields the empty list. -/
def filteredMatchesOpt (matchList : Option (List ChecklistItem))
    (searchTerm filterCategory : String) (sortBy : SortKey) : List ChecklistItem :=
  match matchList with
  | none => []
  | some ms => filteredMatches ms searchTerm filterCategory sortBy

/-! ## Whitespace handling (JS `\s`, `trim`, `replace(/\s+/g, ' ')`) -/

/-- The whitespace class used by JS `\s` and `String.prototype.trim`
(restricted to the ASCII whitespace characters: space, tab, line feed,
carriage return, vertical tab, form feed). -/
def jsWs (c : Char) : Bool :=
  c == ' ' || c == '\t' || c == '\n' || c == '\r' || c == '\x0b' || c == '\x0c'

/-- JS `String.prototype.trim` on a character list: drop whitespace from
both ends. -/
def jsTrimList (l : List Char) : List Char :=
  (l.dropWhile jsWs).rdropWhile jsWs

/-- JS `String.prototype.trim` on strings. -/
def jsTrim (s : String) : String :=
  String.mk (jsTrimList s.toList)

/-- Worker for `content.replace(/\s+/g, ' ')`: `prevWs` records whether the
previous character was whitespace (in which case a further whitespace
character extends the same run and emits nothing). -/
def collapseWsAux : Bool → List Char → List Char
  | _, [] => []
  | prevWs, c :: cs =>
    if jsWs c then
      if prevWs then collapseWsAux true cs else ' ' :: collapseWsAux true cs
    else
      c :: collapseWsAux false cs

/-- `content.replace(/\s+/g, ' ')` from `handleLoadUrl`: every maximal run
of whitespace characters is replaced by a single space. -/
def collapseWs (l : List Char) : List Char :=
  collapseWsAux false l

/-- The text-normalisation step of `handleLoadUrl` in `TextInputPanel.tsx`
(lines 79-89): collapse whitespace runs, trim, and truncate to 1000
characters plus a `'...'` suffix when longer than 1000. The resulting
character list is what `setInputText` receives. -/
def loadUrlContent (content : List Char) : List Char :=
  let cleaned := jsTrimList (collapseWs content)
  if cleaned.length > 1000 then cleaned.take 1000 ++ ['.', '.', '.'] else cleaned

/-- `true` when the list does not start with a whitespace character. -/
def noLeadingWs : List Char → Bool
  | [] => true
  | c :: _ => !jsWs c

/-- `true` when the list does not end with a whitespace character. -/
def noTrailingWs (l : List Char) : Bool :=
  noLeadingWs l.reverse

/-- `true` when the list has no two consecutive whitespace characters. -/
def noDoubleWs : List Char → Bool
  | [] => true
  | [_] => true
  | a :: b :: r => !(jsWs a && jsWs b) && noDoubleWs (b :: r)

/-! ## Match and propose guards (App.tsx, TextInputPanel.tsx) -/

/-- `handleMatch` from `App.tsx` (lines 326-330): the match mutation is
fired exactly when `inputText.trim()` is truthy, i.e. nonempty after
trimming. The returned Bool is whether the match request is issued. -/
def handleMatch (inputText : String) : Bool :=
  jsTrim inputText != ""

/-- Disabled state of the `Match with Checklist` button in
`TextInputPanel.tsx` (line 163): `isLoading || !inputText.trim()`. -/
def matchButtonDisabled (isLoading : Bool) (inputText : String) : Bool :=
  isLoading || jsTrim inputText == ""

/-- `validateUrl` from `TextInputPanel.tsx` (lines 27-34):
`new URL(url).protocol === 'https:'`, `false` when parsing throws. The
WHATWG URL parser is an external collaborator; it is modelled shallowly: a
string is treated as a URL with protocol `https:` exactly when it starts
with the literal scheme `https://` followed by a nonempty remainder. -/
def validateUrl (url : String) : Bool :=
  "https://".toList.isPrefixOf url.toList && url.toList.length > "https://".toList.length

/-- `handleProposeReference` from `App.tsx` (lines 340-344): the propose
mutation is fired exactly when at least one item is selected and the url
field is truthy (nonempty). The returned Bool is whether the propose
request is issued. -/
def handleProposeReference (selectedItems : List String) (inputUrl : String) : Bool :=
  decide (selectedItems.length > 0) && inputUrl != ""

/-! ## Spec-modelled backend operations -/

/-- Typed errors of the ledger `propose` operation (spec §7). -/
inductive ProposeError where
  | unknownItem
  | invalidUrl
deriving DecidableEq, Repr

/-- The pending-change ledger: recorded changes and the next fresh
change id. -/
structure Ledger where
  changes : List PendingChange
  nextId : Nat
deriving DecidableEq, Repr

/-- Modelled from the spec: the backend `propose(itemId, url)` endpoint is
not under the frontend sources; per spec §4.4 it "fails with UnknownItem if
itemId doesn't exist in the Checklist Repository; fails with InvalidUrl if
url is not HTTPS; otherwise appends a new pending-status record with a
fresh unique change_id and current timestamp". The HTTPS test is the same
check `validateUrl` performs. -/
def proposeLedger (repoIds : List String) (led : Ledger) (itemId url : String)
    (now : Nat) : Except ProposeError Ledger :=
  if itemId ∉ repoIds then .error .unknownItem
  else if !validateUrl url then .error .invalidUrl
  else .ok ⟨led.changes ++ [⟨led.nextId, itemId, url, .pending, now⟩], led.nextId + 1⟩

/-- Typed error of the backend match endpoint for blank input (spec §4.3). -/
inductive MatchError where
  | emptyInput
deriving DecidableEq, Repr

/-- Modelled from the spec: the backend `match(text)` endpoint is not under
the frontend sources; per spec §4.3 it "fails with EmptyInput if text is
blank after trimming". Only the error outcome is modelled here; ranking of
nonblank text is carried out by the embedding backend. -/
def matchOutcome (text : String) : Option MatchError :=
  if jsTrim text == "" then some .emptyInput else none

/-- Modelled from the spec: the PR compiler's merge step is backend code not
under the frontend sources; per spec §4.5 it "append[s] source_url to the
referenced item's reference list if not already present (idempotent merge —
duplicate URLs are not re-added)". -/
def mergeReference (refs : List String) (url : String) : List String :=
  if url ∈ refs then refs else refs ++ [url]

/-! ## Helper lemmas -/

theorem handleItemSelect_nodup {sel : List String} (id : String) (h : sel.Nodup) :
    (handleItemSelect sel id).Nodup := by
  unfold handleItemSelect
  split
  · exact h.filter _
  · next hmem =>
    rw [List.nodup_append]
    refine ⟨h, List.nodup_singleton _, ?_⟩
    intro a ha hb
    rw [List.mem_singleton] at hb
    exact hmem (hb ▸ ha)

theorem foldl_handleItemSelect_nodup (acts : List String) :
    ∀ sel : List String, sel.Nodup → (acts.foldl handleItemSelect sel).Nodup := by
  induction acts with
  | nil => intro sel h; exact h
  | cons a acts ih =>
    intro sel h
    exact ih _ (handleItemSelect_nodup a h)

theorem mem_insertStable {α : Type} (lt : α → α → Bool) (x z : α) :
    ∀ l : List α, z ∈ insertStable lt x l ↔ z = x ∨ z ∈ l := by
  intro l
  induction l with
  | nil => simp [insertStable]
  | cons y ys ih =>
    unfold insertStable
    split
    · simp [List.mem_cons]
    · simp only [List.mem_cons, ih]
      tauto

theorem insertStable_scoreLt_pairwise (x : ChecklistItem) {l : List ChecklistItem}
    (h : List.Pairwise (fun a b => scoreOrZero b ≤ scoreOrZero a) l) :
    List.Pairwise (fun a b => scoreOrZero b ≤ scoreOrZero a) (insertStable scoreLt x l) := by
  induction l with
  | nil => simp [insertStable]
  | cons y ys ih =>
    rw [List.pairwise_cons] at h
    obtain ⟨hy, hys⟩ := h
    unfold insertStable
    by_cases hlt : scoreLt x y = true
    · rw [if_pos hlt]
      have hxy : scoreOrZero y ≤ scoreOrZero x := by
        simp only [scoreLt, decide_eq_true_eq] at hlt
        exact le_of_lt hlt
      refine List.Pairwise.cons ?_ (List.Pairwise.cons hy hys)
      intro z hz
      rcases List.mem_cons.mp hz with rfl | hz'
      · exact hxy
      · exact le_trans (hy z hz') hxy
    · rw [if_neg hlt]
      have hxy : scoreOrZero x ≤ scoreOrZero y := by
        simp only [scoreLt, decide_eq_true_eq] at hlt
        exact le_of_not_lt hlt
      refine List.Pairwise.cons ?_ (ih hys)
      intro z hz
      rcases (mem_insertStable scoreLt x z ys).mp hz with rfl | hz'
      · exact hxy
      · exact hy z hz'

theorem jsSort_scoreLt_pairwise (l : List ChecklistItem) :
    List.Pairwise (fun a b => scoreOrZero b ≤ scoreOrZero a) (jsSort scoreLt l) := by
  have aux : ∀ (l acc : List ChecklistItem),
      List.Pairwise (fun a b => scoreOrZero b ≤ scoreOrZero a) acc →
      List.Pairwise (fun a b => scoreOrZero b ≤ scoreOrZero a)
        (l.foldl (fun acc x => insertStable scoreLt x acc) acc) := by
    intro l
    induction l with
    | nil => intro acc h; exact h
    | cons x xs ih =>
      intro acc h
      exact ih _ (insertStable_scoreLt_pairwise x h)
  exact aux l [] List.Pairwise.nil

theorem filter_insertStable_of_ne {α : Type} (lt : α → α → Bool) (p : α → Bool) (x : α)
    (hx : p x = false) : ∀ l : List α, (insertStable lt x l).filter p = l.filter p := by
  intro l
  induction l with
  | nil => simp [insertStable, List.filter, hx]
  | cons y ys ih =>
    unfold insertStable
    split
    · rw [List.filter_cons, hx]
      simp
    · rw [List.filter_cons, List.filter_cons, ih]

theorem filter_insertStable_of_eq (x : ChecklistItem) (q : ℚ) (hx : scoreOrZero x = q) :
    ∀ l : List ChecklistItem, List.Pairwise (fun a b => scoreOrZero b ≤ scoreOrZero a) l →
      (insertStable scoreLt x l).filter (fun m => decide (scoreOrZero m = q)) =
        l.filter (fun m => decide (scoreOrZero m = q)) ++ [x] := by
  intro l
  induction l with
  | nil => intro _; simp [insertStable, List.filter, hx]
  | cons y ys ih =>
    intro h
    rw [List.pairwise_cons] at h
    obtain ⟨hy, hys⟩ := h
    unfold insertStable
    by_cases hlt : scoreLt x y = true
    · rw [if_pos hlt]
      simp only [scoreLt, decide_eq_true_eq, hx] at hlt
      have hnil : (y :: ys).filter (fun m => decide (scoreOrZero m = q)) = [] := by
        rw [List.filter_eq_nil_iff]
        intro z hz
        simp only [decide_eq_true_eq]
        rcases List.mem_cons.mp hz with rfl | hz'
        · exact ne_of_lt hlt
        · exact ne_of_lt (lt_of_le_of_lt (hy z hz') hlt)
      rw [List.filter_cons, hnil]
      simp [hx]
    · rw [if_neg hlt]
      rw [List.filter_cons, List.filter_cons, ih hys]
      by_cases hpy : scoreOrZero y = q <;> simp [hpy]

theorem jsSort_scoreLt_stable (l : List ChecklistItem) (q : ℚ) :
    (jsSort scoreLt l).filter (fun m => decide (scoreOrZero m = q)) =
      l.filter (fun m => decide (scoreOrZero m = q)) := by
  have aux : ∀ (l acc : List ChecklistItem),
      List.Pairwise (fun a b => scoreOrZero b ≤ scoreOrZero a) acc →
      (l.foldl (fun acc x => insertStable scoreLt x acc) acc).filter
          (fun m => decide (scoreOrZero m = q)) =
        acc.filter (fun m => decide (scoreOrZero m = q)) ++
          l.filter (fun m => decide (scoreOrZero m = q)) := by
    intro l
    induction l with
    | nil => intro acc _; simp
    | cons x xs ih =>
      intro acc h
      rw [List.foldl_cons, ih _ (insertStable_scoreLt_pairwise x h)]
      by_cases hx : scoreOrZero x = q
      · rw [filter_insertStable_of_eq x q hx acc h, List.filter_cons]
        simp [hx, List.append_assoc]
      · have hpx : (fun m => decide (scoreOrZero m = q)) x = false := by simp [hx]
        rw [filter_insertStable_of_ne scoreLt _ x hpx acc, List.filter_cons]
        simp [hx]
  have h := aux l [] List.Pairwise.nil
  simpa [jsSort] using h

theorem filteredMatches_score_nofilter (l : List ChecklistItem) :
    filteredMatches l "" "" SortKey.score = jsSort scoreLt l := by
  unfold filteredMatches
  simp [sortLt]

theorem noLeadingWs_dropWhile (l : List Char) : noLeadingWs (l.dropWhile jsWs) = true := by
  induction l with
  | nil => rfl
  | cons c cs ih =>
    rw [List.dropWhile_cons]
    split
    · exact ih
    · next h =>
      have hc : jsWs c = false := by simpa using h
      simp [noLeadingWs, hc]

theorem noLeadingWs_mono {l l' : List Char} (h : l' <+: l)
    (hl : noLeadingWs l = true) : noLeadingWs l' = true := by
  obtain ⟨t, rfl⟩ := h
  cases l' with
  | nil => rfl
  | cons c cs => simpa [noLeadingWs] using hl

theorem noLeadingWs_trim (l : List Char) : noLeadingWs (jsTrimList l) = true :=
  noLeadingWs_mono ( List.rdropWhile_prefix jsWs _) (noLeadingWs_dropWhile l)

theorem noTrailingWs_trim (l : List Char) : noTrailingWs (jsTrimList l) = true := by
  unfold noTrailingWs jsTrimList
  simp only [List.rdropWhile, List.reverse_reverse]
  exact noLeadingWs_dropWhile _

theorem noDoubleWs_tail {c : Char} {l : List Char} (h : noDoubleWs (c :: l) = true) :
    noDoubleWs l = true := by
  cases l with
  | nil => rfl
  | cons b t =>
    simp only [noDoubleWs, Bool.and_eq_true] at h
    exact h.2

theorem noDoubleWs_cons_of_noLeading {a : Char} {l : List Char}
    (hl : noLeadingWs l = true) (hd : noDoubleWs l = true) :
    noDoubleWs (a :: l) = true := by
  cases l with
  | nil => rfl
  | cons b t =>
    have hb : jsWs b = false := by simpa [noLeadingWs] using hl
    simp [noDoubleWs, hb, hd]

theorem noDoubleWs_cons_of_head {a : Char} {l : List Char}
    (ha : jsWs a = false) (hd : noDoubleWs l = true) :
    noDoubleWs (a :: l) = true := by
  cases l with
  | nil => rfl
  | cons b t => simp [noDoubleWs, ha, hd]

theorem noLeadingWs_collapseAux_true (l : List Char) :
    noLeadingWs (collapseWsAux true l) = true := by
  induction l with
  | nil => rfl
  | cons c cs ih =>
    by_cases h : jsWs c = true
    · simpa [collapseWsAux, h] using ih
    · have hc : jsWs c = false := by simpa using h
      simp [collapseWsAux, h, noLeadingWs, hc]

theorem noDoubleWs_collapseAux : ∀ (l : List Char) (b : Bool),
    noDoubleWs (collapseWsAux b l) = true := by
  intro l
  induction l with
  | nil => intro b; rfl
  | cons c cs ih =>
    intro b
    by_cases h : jsWs c = true
    · cases b
      · have := noDoubleWs_cons_of_noLeading (a := ' ')
          (noLeadingWs_collapseAux_true cs) (ih true)
        simpa [collapseWsAux, h] using this
      · simpa [collapseWsAux, h] using ih true
    · have hc : jsWs c = false := by simpa using h
      have := noDoubleWs_cons_of_head hc (ih false)
      simpa [collapseWsAux, h] using this

theorem noDoubleWs_append_left {r : List Char} :
    ∀ l : List Char, noDoubleWs (l ++ r) = true → noDoubleWs l = true := by
  intro l
  induction l with
  | nil => intro _; rfl
  | cons a l ih =>
    intro h
    cases l with
    | nil => rfl
    | cons b t =>
      simp only [List.cons_append, noDoubleWs, Bool.and_eq_true] at h ⊢
      exact ⟨h.1, ih (by simpa [noDoubleWs, Bool.and_eq_true] using h.2)⟩

theorem noDoubleWs_append_right {r : List Char} :
    ∀ l : List Char, noDoubleWs (l ++ r) = true → noDoubleWs r = true := by
  intro l
  induction l with
  | nil => intro h; simpa using h
  | cons a l ih =>
    intro h
    exact ih (noDoubleWs_tail (by simpa using h))

theorem noDoubleWs_trim {l : List Char} (h : noDoubleWs l = true) :
    noDoubleWs (jsTrimList l) = true := by
  unfold jsTrimList
  have h1 : noDoubleWs (l.dropWhile jsWs) = true := by
    obtain ⟨t, ht⟩ := List.dropWhile_suffix (l := l) jsWs
    rw [← ht] at h
    exact noDoubleWs_append_right t h
  obtain ⟨t, ht⟩ := List.rdropWhile_prefix jsWs (l.dropWhile jsWs)
  rw [← ht] at h1
  exact noDoubleWs_append_left _ h1

theorem noDoubleWs_append_of_noLeading {r : List Char} (hr : noDoubleWs r = true)
    (hlr : noLeadingWs r = true) :
    ∀ l : List Char, noDoubleWs l = true → noDoubleWs (l ++ r) = true := by
  intro l
  induction l with
  | nil => intro _; simpa using hr
  | cons a l ih =>
    intro hl
    cases l with
    | nil => simpa using noDoubleWs_cons_of_noLeading hlr hr
    | cons b t =>
      have htail := ih (noDoubleWs_tail hl)
      simp only [List.cons_append, noDoubleWs, Bool.and_eq_true] at hl htail ⊢
      exact ⟨hl.1, htail⟩

theorem noLeadingWs_append_left {l r : List Char} (hne : l ≠ [])
    (h : noLeadingWs l = true) : noLeadingWs (l ++ r) = true := by
  cases l with
  | nil => exact absurd rfl hne
  | cons c cs => simpa [noLeadingWs] using h

/-! ## Claim theorems -/

/-- C9: starting from the empty selection, any sequence of `handleItemSelect`
calls leaves the selected-items list duplicate-free, and toggling an
unselected id twice restores the selection exactly. -/
theorem handleItemSelect_nodup_and_involutive :
    (∀ acts : List String, (acts.foldl handleItemSelect []).Nodup) ∧
    ∀ (sel : List String) (id : String), id ∉ sel →
      handleItemSelect (handleItemSelect sel id) id = sel := by
  constructor
  · intro acts
    exact foldl_handleItemSelect_nodup acts [] List.nodup_nil
  · intro sel id hid
    have h1 : handleItemSelect sel id = sel ++ [id] := by
      unfold handleItemSelect
      rw [if_neg hid]
    rw [h1]
    unfold handleItemSelect
    rw [if_pos (List.mem_append_right _ (List.mem_singleton_self id))]
    rw [List.filter_append]
    have h2 : List.filter (fun x => x != id) [id] = [] := by simp
    have h3 : List.filter (fun x => x != id) sel = sel := by
      rw [List.filter_eq_self]
      intro a ha
      simp only [bne_iff_ne, ne_eq]
      intro heq
      exact hid (heq ▸ ha)
    rw [h2, h3, List.append_nil]

/-- Witness for C9 at a concrete action sequence and a concrete toggle. -/
theorem handleItemSelect_nodup_and_involutive_witness :
    ((["A", "B", "A"] : List String).foldl handleItemSelect []).Nodup ∧
      handleItemSelect (handleItemSelect ["B"] "A") "A" = ["B"] :=
  ⟨handleItemSelect_nodup_and_involutive.1 ["A", "B", "A"],
    handleItemSelect_nodup_and_involutive.2 ["B"] "A" (by decide)⟩

/-- C7: `safeApiCall` turns every thrown value into an `{ error: true,
message }` result carrying a message, and never converts a thrown value
into a success — the exception is not propagated and no partial success is
reported. -/
theorem safeApiCall_total_error_handling :
    ∀ (α : Type) (e : JsThrown),
      safeApiCall (Except.error e : Except JsThrown α) = ApiResponse.errorResult (errMessage e) ∧
      (∀ a : α, safeApiCall (Except.error e : Except JsThrown α) ≠ ApiResponse.success a) ∧
      ∀ a : α, safeApiCall (Except.ok a : Except JsThrown α) = ApiResponse.success a := by
  intro α e
  refine ⟨rfl, ?_, fun a => rfl⟩
  intro a h
  exact ApiResponse.noConfusion h

/-- Witness for C7 at a concrete thrown value: the null value is converted
into the generic error result. -/
theorem safeApiCall_total_error_handling_witness :
    safeApiCall (Except.error JsThrown.nullVal : Except JsThrown Nat) =
      ApiResponse.errorResult "An unknown error occurred" :=
  (safeApiCall_total_error_handling Nat JsThrown.nullVal).1

/-- C5: the filter-and-sort computation over match results is
deterministic — two evaluations on identical inputs give the identical
ordered list. -/
theorem filteredMatches_deterministic :
    ∀ (m m' : List ChecklistItem) (s s' c c' : String) (k k' : SortKey),
      m = m' → s = s' → c = c' → k = k' →
      filteredMatches m s c k = filteredMatches m' s' c' k' := by
  intro m m' s s' c c' k k' hm hs hc hk
  rw [hm, hs, hc, hk]

/-- Witness for C5 at concrete identical inputs. -/
theorem filteredMatches_deterministic_witness :
    filteredMatches [⟨"A", "c", "q", "d", "r", [], some 1⟩] "q" "c" SortKey.score =
      filteredMatches [⟨"A", "c", "q", "d", "r", [], some 1⟩] "q" "c" SortKey.score :=
  filteredMatches_deterministic _ _ _ _ _ _ _ _ rfl rfl rfl rfl

/-- C6: filtering and sorting an empty or missing matches list yields the
empty list (and, being a total function, never an error). -/
theorem filteredMatches_empty :
    ∀ (s c : String) (k : SortKey),
      filteredMatchesOpt none s c k = [] ∧ filteredMatchesOpt (some []) s c k = [] := by
  intro s c k
  refine ⟨rfl, ?_⟩
  show filteredMatches [] s c k = []
  unfold filteredMatches
  simp only [List.filter_nil]
  split <;> split <;> rfl

/-- C3: for input text that is blank after trimming, the frontend never
issues the match request (the mutation is not fired and the button is
disabled), and the spec-modelled backend match fails with EmptyInput. -/
theorem blank_text_no_match (text : String) (isLoading : Bool)
    (h : jsTrim text = "") :
    handleMatch text = false ∧
      matchButtonDisabled isLoading text = true ∧
      matchOutcome text = some MatchError.emptyInput := by
  refine ⟨?_, ?_, ?_⟩
  · simp [handleMatch, h]
  · simp [matchButtonDisabled, h]
  · simp [matchOutcome, h]

/-- Witness for C3 at the empty string and a blank string. -/
theorem blank_text_no_match_witness :
    jsTrim "" = "" ∧
      (handleMatch "" = false ∧ matchButtonDisabled false "" = true ∧
        matchOutcome "" = some MatchError.emptyInput) ∧
      jsTrim " \t " = "" ∧
      handleMatch " \t " = false :=
  ⟨by decide, blank_text_no_match "" false (by decide), by decide,
    (blank_text_no_match " \t " true (by decide)).1⟩

/-- C4: merging a pending change's source url into a reference list is
idempotent — merging twice equals merging once, the url is present
afterwards, and (when the list did not already hold a duplicate of it) the
url appears exactly once. -/
theorem mergeReference_idempotent (refs : List String) (url : String) :
    mergeReference (mergeReference refs url) url = mergeReference refs url ∧
      url ∈ mergeReference refs url ∧
      (refs.count url ≤ 1 → (mergeReference refs url).count url = 1) := by
  unfold mergeReference
  by_cases hmem : url ∈ refs
  · rw [if_pos hmem, if_pos hmem]
    refine ⟨rfl, hmem, ?_⟩
    intro hle
    have hpos : 0 < refs.count url := List.count_pos_iff.mpr hmem
    omega
  · rw [if_neg hmem]
    have hmem2 : url ∈ refs ++ [url] := List.mem_append_right _ (List.mem_singleton_self url)
    rw [if_pos hmem2]
    refine ⟨rfl, hmem2, ?_⟩
    intro _
    rw [List.count_append]
    rw [List.count_eq_zero_of_not_mem hmem]
    simp

/-- C2 counterexample: two candidates with equal score and ids `"B"` before
`"A"` in the input keep that order after sorting by score — equal-score
candidates do not appear in ascending id order, refuting the claimed
deterministic ascending-id tie-break. -/
theorem filteredMatches_tie_not_by_id :
    ¬ List.Pairwise (fun a b => scoreOrZero b < scoreOrZero a ∨
        (scoreOrZero a = scoreOrZero b ∧ a.id.toList < b.id.toList))
      (filteredMatches [⟨"B", "c", "q", "d", "r", [], some 1⟩,
        ⟨"A", "c", "q", "d", "r", [], some 1⟩] "" "" SortKey.score) := by
  decide

/-- C2 (amended): with the score sort key selected, `filteredMatches`
orders candidates by score with the highest score first, and candidates
with equal score keep their original relative order (the sort is stable)
rather than being re-ordered by ascending id. -/
theorem filteredMatches_score_sorted_stable (l : List ChecklistItem) :
    List.Pairwise (fun a b => scoreOrZero b ≤ scoreOrZero a)
        (filteredMatches l "" "" SortKey.score) ∧
      ∀ q : ℚ, (filteredMatches l "" "" SortKey.score).filter
          (fun m => decide (scoreOrZero m = q)) =
        l.filter (fun m => decide (scoreOrZero m = q)) := by
  rw [filteredMatches_score_nofilter]
  exact ⟨jsSort_scoreLt_pairwise l, fun q => jsSort_scoreLt_stable l q⟩

/-- C1 counterexample: with the non-HTTPS url `http://y.com` and one
selected item, `validateUrl` classifies the url as invalid, yet
`handleProposeReference` still performs the propose request — refuting
"no propose request is performed ... the propose operation goes ahead only
for HTTPS urls". -/
theorem propose_nonHttps_request_still_sent :
    validateUrl "http://y.com" = false ∧
      handleProposeReference ["SOL-AC-1"] "http://y.com" = true := by
  constructor
  · decide
  · decide

/-- C1 (amended): the spec-modelled ledger propose rejects a non-HTTPS url
with InvalidUrl and records nothing, but the frontend performs the propose
request for any nonempty url once an item is selected — `validateUrl` does
not gate `handleProposeReference`. -/
theorem propose_nonHttps_rejected_by_ledger (repoIds : List String) (led : Ledger)
    (itemId url : String) (now : Nat) (sel : List String)
    (hmem : itemId ∈ repoIds) (hurl : validateUrl url = false)
    (hsel : sel ≠ []) (hne : url ≠ "") :
    proposeLedger repoIds led itemId url now = Except.error ProposeError.invalidUrl ∧
      handleProposeReference sel url = true := by
  constructor
  · unfold proposeLedger
    rw [if_neg (by simp [hmem]), if_pos (by simp [hurl])]
  · unfold handleProposeReference
    have : 0 < sel.length := List.length_pos.mpr hsel
    simp [this, hne]

/-- Witness for the amended C1 at a concrete ledger state and url. -/
theorem propose_nonHttps_rejected_by_ledger_witness :
    proposeLedger ["SOL-AC-1"] ⟨[], 0⟩ "SOL-AC-1" "http://y.com" 0 =
        Except.error ProposeError.invalidUrl ∧
      handleProposeReference ["SOL-AC-1"] "http://y.com" = true :=
  propose_nonHttps_rejected_by_ledger ["SOL-AC-1"] ⟨[], 0⟩ "SOL-AC-1" "http://y.com" 0
    ["SOL-AC-1"] (by decide) (by decide) (by decide) (by decide)

/-- C8 counterexample: while a create-PR request is in flight, a click on
the `Create GitHub PR` button is silently ignored (the button is disabled);
the outcome space of a click contains no failure at all, so the second
attempt does not "fail with AlreadyInProgress" — it is a no-op. -/
theorem second_createPr_click_is_noop :
    clickOutcome 1 = ClickOutcome.ignoredDisabled ∧
      ∀ o : ClickOutcome, o = ClickOutcome.requestStarted ∨ o = ClickOutcome.ignoredDisabled := by
  refine ⟨rfl, fun o => ?_⟩
  cases o
  · exact Or.inl rfl
  · exact Or.inr rfl

/-- C8 (amended): after any sequence of clicks and request completions at
most one create-PR request is in flight, and while one is in flight any
further click is ignored because the button is disabled (rather than
failing with a typed AlreadyInProgress error). -/
theorem createPr_single_flight :
    (∀ acts : List PrAction, runPr acts ≤ 1) ∧
      ∀ n : Nat, 1 ≤ n → clickOutcome n = ClickOutcome.ignoredDisabled := by
  constructor
  · have aux : ∀ (acts : List PrAction) (n : Nat), n ≤ 1 → acts.foldl prStep n ≤ 1 := by
      intro acts
      induction acts with
      | nil => intro n h; exact h
      | cons a acts ih =>
        intro n h
        refine ih _ ?_
        cases a with
        | clickCreatePr =>
          simp only [prStep]
          split
          · exact le_refl 1
          · exact h
        | prSettled =>
          simp only [prStep]
          omega
    intro acts
    exact aux acts 0 (by omega)
  · intro n hn
    have hne : (n == 0) = false := by
      simp only [beq_eq_false_iff_ne, ne_eq]
      omega
    simp [clickOutcome, hne]

/-- Witness for the amended C8: a double click yields a single in-flight
request, and a click in the loading state is ignored. -/
theorem createPr_single_flight_witness :
    runPr [PrAction.clickCreatePr, PrAction.clickCreatePr] ≤ 1 ∧
      clickOutcome 1 = ClickOutcome.ignoredDisabled :=
  ⟨createPr_single_flight.1 [PrAction.clickCreatePr, PrAction.clickCreatePr],
    createPr_single_flight.2 1 (by decide)⟩

/-- C10: the text `handleLoadUrl` places into the input field is
whitespace-normalized and bounded — no leading or trailing whitespace, no
two consecutive whitespace characters, and at most 1003 characters
(1000 content characters plus the three-character `'...'` suffix). -/
theorem loadUrlContent_normalized (content : List Char) :
    noLeadingWs (loadUrlContent content) = true ∧
      noTrailingWs (loadUrlContent content) = true ∧
      noDoubleWs (loadUrlContent content) = true ∧
      (loadUrlContent content).length ≤ 1003 := by
  have hLead : noLeadingWs (jsTrimList (collapseWs content)) = true := noLeadingWs_trim _
  have hTrail : noTrailingWs (jsTrimList (collapseWs content)) = true := noTrailingWs_trim _
  have hDouble : noDoubleWs (jsTrimList (collapseWs content)) = true := by
    refine noDoubleWs_trim ?_
    unfold collapseWs
    exact noDoubleWs_collapseAux content false
  simp only [loadUrlContent]
  by_cases hlen : (jsTrimList (collapseWs content)).length > 1000
  · rw [if_pos hlen]
    have hne : jsTrimList (collapseWs content) ≠ [] := by
      intro hnil
      rw [hnil] at hlen
      simp at hlen
    have htakene : (jsTrimList (collapseWs content)).take 1000 ≠ [] := by
      refine List.ne_nil_of_length_pos ?_
      rw [List.length_take]
      have : 0 < (jsTrimList (collapseWs content)).length := by omega
      omega
    have htake : noLeadingWs ((jsTrimList (collapseWs content)).take 1000) = true :=
      noLeadingWs_mono ⟨(jsTrimList (collapseWs content)).drop 1000,
        List.take_append_drop 1000 _⟩ hLead
    refine ⟨noLeadingWs_append_left htakene htake, ?_, ?_, ?_⟩
    · unfold noTrailingWs
      rw [List.reverse_append]
      exact noLeadingWs_append_left (by decide) (by decide)
    · refine noDoubleWs_append_of_noLeading (by decide) (by decide) _ ?_
      have := hDouble
      rw [← List.take_append_drop 1000 (jsTrimList (collapseWs content))] at this
      exact noDoubleWs_append_left _ this
    · rw [List.length_append, List.length_take]
      simp only [List.length_cons, List.length_nil]
      omega
  · rw [if_neg hlen]
    exact ⟨hLead, hTrail, hDouble, by omega⟩
theorem mergeReference_idempotent_witness :
    mergeReference (mergeReference ["https://x.com"] "https://y.com") "https://y.com" =
        mergeReference ["https://x.com"] "https://y.com" ∧
      (mergeReference ["https://x.com"] "https://y.com").count "https://y.com" = 1 :=
  ⟨(mergeReference_idempotent ["https://x.com"] "https://y.com").1,
    (mergeReference_idempotent ["https://x.com"] "https://y.com").2.2 (by decide)⟩

end SoloditMatcher
